import Mathlib

/-! DNS-forwarder: tunnel codec, AEAD envelope, client cache and request handlers.

A shallow embedding of `pkg/protocol/message.go`, `pkg/crypto/crypto.go`,
`cmd/client/main.go` and `cmd/upstream/main.go`.

Conventions of the embedding
* a Go `[]byte` is a `List Nat` whose elements are byte values (below 256);
* `uint32`, `uint64` and `int64` are `Nat` / `Int` with explicit reduction
  modulo `2^32` / `2^64`; Go `int` is the 64-bit `int`;
* a Go function returning `(value, error)` returns `Except Fault value`, where
  `Fault.error` is a returned `error` and `Fault.outOfRange` is the run-time
  fault raised by an index or slice expression that leaves its operand.
-/

namespace DNSForwarder

/-- Go byte strings. -/
abbrev Bytes := List Nat

/-- Ways in which a call does not produce its value. -/
inductive Fault where
  /-- The call returned a non-nil `error` with this text. -/
  | error (msg : String)
  /-- An index or slice expression was out of range (Go run-time fault). -/
  | outOfRange
  /-- A method was called through a nil pointer (Go run-time fault). -/
  | nilDereference
deriving DecidableEq, Repr

deriving instance DecidableEq for Except

/-- Index expression `data[i]`. -/
def index (data : Bytes) (i : Nat) : Except Fault Nat :=
  match data[i]? with
  | some b => .ok b
  | none => .error .outOfRange

/-- Slice expression `data[lo:hi]` (capacity taken equal to the length). -/
def slice (data : Bytes) (lo hi : Nat) : Except Fault Bytes :=
  if lo ≤ hi ∧ hi ≤ data.length then .ok ((data.take hi).drop lo) else .error .outOfRange

/-- Builtin `copy(dst, src)`: the first `min(len(dst), len(src))` elements of
`dst` are overwritten by those of `src`; the value is `dst` afterwards. -/
def copy (dst src : Bytes) : Bytes :=
  src.take dst.length ++ dst.drop src.length

namespace binary

/-- Go `binary.BigEndian.PutUint32` applied to a 4-byte slice: the bytes written. -/
def PutUint32 (v : Nat) : Bytes :=
  [v / 2 ^ 24 % 256, v / 2 ^ 16 % 256, v / 2 ^ 8 % 256, v % 256]

/-- Go `binary.BigEndian.PutUint64` applied to an 8-byte slice: the bytes written. -/
def PutUint64 (v : Nat) : Bytes :=
  [v / 2 ^ 56 % 256, v / 2 ^ 48 % 256, v / 2 ^ 40 % 256, v / 2 ^ 32 % 256,
   v / 2 ^ 24 % 256, v / 2 ^ 16 % 256, v / 2 ^ 8 % 256, v % 256]

/-- Go `binary.BigEndian.Uint32`: bounds check on `b[3]`, then
`b[3] | b[2]<<8 | b[1]<<16 | b[0]<<24`. -/
def Uint32 (b : Bytes) : Except Fault Nat := do
  let b3 ← index b 3
  let b0 ← index b 0
  let b1 ← index b 1
  let b2 ← index b 2
  pure (b3 + b2 * 2 ^ 8 + b1 * 2 ^ 16 + b0 * 2 ^ 24)

/-- Go `binary.BigEndian.Uint64`: bounds check on `b[7]`, then the eight bytes
combined most significant first. -/
def Uint64 (b : Bytes) : Except Fault Nat := do
  let b7 ← index b 7
  let b0 ← index b 0
  let b1 ← index b 1
  let b2 ← index b 2
  let b3 ← index b 3
  let b4 ← index b 4
  let b5 ← index b 5
  let b6 ← index b 6
  pure (b7 + b6 * 2 ^ 8 + b5 * 2 ^ 16 + b4 * 2 ^ 24 + b3 * 2 ^ 32 + b2 * 2 ^ 40
    + b1 * 2 ^ 48 + b0 * 2 ^ 56)

end binary

/-- Conversion `uint64(x)` of an `int64`. -/
def toUint64 (x : Int) : Nat := (x % 2 ^ 64).toNat

/-- Conversion `int64(u)` of a `uint64`. -/
def toInt64 (u : Nat) : Int := if u < 2 ^ 63 then (u : Int) else (u : Int) - 2 ^ 64

namespace protocol

def TypeDNSQuery : Nat := 0x01
def TypeDNSResponse : Nat := 0x02
def TypeHeartbeat : Nat := 0x03
def TypeHeartbeatAck : Nat := 0x04

/-- Go `protocol.Message`; `MsgType` is the field `Type` (a byte). -/
structure Message where
  MsgType : Nat
  RequestID : Nat
  Timestamp : Int
  Payload : Bytes
deriving DecidableEq, Repr

/-- The values a Go `Message` can hold: a byte, a `uint32`, an `int64`. -/
def Message.WellTyped (m : Message) : Prop :=
  m.MsgType < 256 ∧ m.RequestID < 2 ^ 32 ∧ -(2 : Int) ^ 63 ≤ m.Timestamp ∧ m.Timestamp < 2 ^ 63

instance (m : Message) : Decidable m.WellTyped := by
  unfold Message.WellTyped; infer_instance

/-- Go `(*Message).Encode`. The buffer of `17 + len(Payload)` zero bytes is
overwritten at `[0]`, `[1:5]`, `[5:13]`, `[13:17]` and `[17:]`, which covers it. -/
def Message.Encode (m : Message) : Bytes :=
  [m.MsgType % 256] ++ binary.PutUint32 m.RequestID ++ binary.PutUint64 (toUint64 m.Timestamp)
    ++ binary.PutUint32 (m.Payload.length % 2 ^ 32)
    ++ copy (List.replicate m.Payload.length 0) m.Payload

/-- Go `protocol.Decode`. The comparison `len(data) < 17+int(payloadLen)` is in
`int`; the slice bound `17+payloadLen` is in `uint32` and wraps. -/
def Decode (data : Bytes) : Except Fault Message := do
  if data.length < 17 then throw (Fault.error "message too short")
  let ty ← index data 0
  let rid ← slice data 1 5 >>= binary.Uint32
  let ts ← slice data 5 13 >>= binary.Uint64
  let payloadLen ← slice data 13 17 >>= binary.Uint32
  if data.length < 17 + payloadLen then throw (Fault.error "payload incomplete")
  let src ← slice data 17 ((17 + payloadLen) % 2 ^ 32)
  pure { MsgType := ty, RequestID := rid, Timestamp := toInt64 ts,
         Payload := copy (List.replicate payloadLen 0) src }

/-- The payload length a buffer declares: its bytes 13..16 read big-endian
(a missing byte counts as 0). -/
def declaredLen (data : Bytes) : Nat :=
  data.getD 13 0 * 2 ^ 24 + data.getD 14 0 * 2 ^ 16 + data.getD 15 0 * 2 ^ 8 + data.getD 16 0

end protocol

open protocol

/-- The header fields `Decode` reads from a buffer of at least 17 bytes. -/
def headerOf (data : Bytes) (payload : Bytes) : Message :=
  { MsgType := data.getD 0 0
    RequestID := data.getD 4 0 + data.getD 3 0 * 2 ^ 8 + data.getD 2 0 * 2 ^ 16
      + data.getD 1 0 * 2 ^ 24
    Timestamp := toInt64 (data.getD 12 0 + data.getD 11 0 * 2 ^ 8 + data.getD 10 0 * 2 ^ 16
      + data.getD 9 0 * 2 ^ 24 + data.getD 8 0 * 2 ^ 32 + data.getD 7 0 * 2 ^ 40
      + data.getD 6 0 * 2 ^ 48 + data.getD 5 0 * 2 ^ 56)
    Payload := payload }

/-- Value of a byte string read big-endian (most significant byte first). -/
def beValue (b : Bytes) : Nat := b.foldl (fun acc x => acc * 256 + x) 0

/-- Bytes `lo .. hi-1` of a buffer. -/
def bytesAt (data : Bytes) (lo hi : Nat) : Bytes := (data.take hi).drop lo

/-! ## AEAD envelope (`pkg/crypto/crypto.go`) -/

namespace crypto

def NonceSize : Nat := 12

/-- Go `cipher.AEAD` with empty associated data. `sealed nonce plaintext` is the
ciphertext followed by the tag; `Open nonce sealed` is the plaintext or a
failure. -/
structure AEAD where
  sealed : Bytes → Bytes → Bytes
  Open : Bytes → Bytes → Option Bytes

/-- Go `gcm.Seal(dst, nonce, plaintext, nil)`: the sealed text appended to `dst`. -/
def AEAD.Seal (g : AEAD) (dst nonce plaintext : Bytes) : Bytes :=
  dst ++ g.sealed nonce plaintext

/-- The AEAD contract: `Open` inverts `Seal` under the same nonce. -/
def AEAD.Lawful (g : AEAD) : Prop :=
  ∀ nonce plaintext, nonce.length = NonceSize → g.Open nonce (g.sealed nonce plaintext) = some plaintext

/-- Go `crypto.Encryptor`. -/
structure Encryptor where
  gcm : AEAD

/-- Go `(*Encryptor).Encrypt`. `rand` is the outcome of
`io.ReadFull(rand.Reader, nonce)`: the 12 bytes drawn, or an error. -/
def Encryptor.Encrypt (e : Encryptor) (rand : Except Fault Bytes) (plaintext : Bytes) :
    Except Fault Bytes :=
  match rand with
  | .error err => .error err
  | .ok nonce => .ok (e.gcm.Seal nonce nonce plaintext)

/-- Go `(*Encryptor).Decrypt`. -/
def Encryptor.Decrypt (e : Encryptor) (ciphertext : Bytes) : Except Fault Bytes :=
  if ciphertext.length < NonceSize then .error (Fault.error "ciphertext too short")
  else
    let nonce := ciphertext.take NonceSize
    let ciphertext := ciphertext.drop NonceSize
    match e.gcm.Open nonce ciphertext with
    | none => .error (Fault.error "cipher: message authentication failed")
    | some plaintext => .ok plaintext

/-- A toy AEAD: the plaintext followed by a one-byte checksum of nonce and
plaintext. -/
def toyAEAD : AEAD where
  sealed := fun nonce plaintext => plaintext ++ [(nonce.sum + plaintext.sum) % 256]
  Open := fun nonce s =>
    if s.length = 0 then none
    else if s.getLast? = some ((nonce.sum + (s.take (s.length - 1)).sum) % 256)
      then some (s.take (s.length - 1)) else none

end crypto

/-! ## Go maps as association lists with pairwise distinct keys -/

/-- Map read `m[k]`. -/
def mapLookup {κ ν : Type} [DecidableEq κ] (m : List (κ × ν)) (k : κ) : Option ν :=
  match m with
  | [] => none
  | (k', v) :: rest => if k' = k then some v else mapLookup rest k

/-- Builtin `delete(m, k)`. -/
def mapDelete {κ ν : Type} [DecidableEq κ] (m : List (κ × ν)) (k : κ) : List (κ × ν) :=
  m.filter (fun e => decide (e.1 ≠ k))

/-- Map write `m[k] = v`. -/
def mapStore {κ ν : Type} [DecidableEq κ] (m : List (κ × ν)) (k : κ) (v : ν) : List (κ × ν) :=
  (k, v) :: mapDelete m k

/-- The key a `for k := range m` loop visits first. Go leaves the iteration
order of a map unspecified; `pick` selects among the entries present. -/
def rangeFirst {κ ν : Type} (m : List (κ × ν)) (pick : Nat) : Option κ :=
  (m[pick % m.length]?).map (fun e => e.1)

/-! ## Client DNS cache (`cmd/client/main.go`) -/

/-- Go `CacheEntry`; `Data` is `none` for a nil slice, instants are nanoseconds. -/
structure CacheEntry where
  Data : Option Bytes
  ExpiresAt : Int
deriving DecidableEq, Repr

/-- Go `DNSCache` (the lock is not modelled: every operation holds it throughout). -/
structure DNSCache where
  entries : List (String × CacheEntry)
  maxSize : Int
deriving DecidableEq, Repr

/-- Go `getCached`, reading the clock as `now`; `none` is the nil result. -/
def getCached (c : DNSCache) (now : Int) (key : String) : Option Bytes :=
  match mapLookup c.entries key with
  | none => none
  | some entry => if now > entry.ExpiresAt then none else entry.Data

/-- Go `setCache`, with `ttl` for `config.Cache.TTL`, reading the clock as `now`. -/
def setCache (c : DNSCache) (ttl now : Int) (pick : Nat) (key : String) (data : Option Bytes) :
    DNSCache :=
  let entries :=
    if (c.entries.length : Int) ≥ c.maxSize then
      match rangeFirst c.entries pick with
      | some k => mapDelete c.entries k
      | none => c.entries
    else c.entries
  { c with entries := mapStore entries key { Data := data, ExpiresAt := now + ttl } }

/-- One tick of Go `cleanupCache`, reading the clock as `now`. -/
def cleanupCache (c : DNSCache) (now : Int) : DNSCache :=
  { c with entries := c.entries.filter (fun e => decide (¬ now > e.2.ExpiresAt)) }

/-- Operations that write the cache. -/
inductive CacheOp where
  | set (key : String) (data : Option Bytes) (now : Int) (pick : Nat)
  | sweep (now : Int)
deriving DecidableEq, Repr

def CacheOp.apply (ttl : Int) (c : DNSCache) : CacheOp → DNSCache
  | .set key data now pick => setCache c ttl now pick key data
  | .sweep now => cleanupCache c now

/-- The cache after a sequence of operations, oldest first. -/
def runCache (ttl : Int) (c : DNSCache) (ops : List CacheOp) : DNSCache :=
  ops.foldl (CacheOp.apply ttl) c

/-- The cache `main` creates: no entries, capacity `config.Cache.MaxSize`. -/
def emptyCache (maxSize : Int) : DNSCache := { entries := [], maxSize := maxSize }

/-- Data and clock reading of the most recent `setCache(k, ·)` in a sequence of
operations (oldest first), if there is one. -/
def lastSet (ops : List CacheOp) (k : String) : Option (Option Bytes × Int) :=
  ops.foldl (fun acc op =>
    match op with
    | .set key data now _ => if key = k then some (data, now) else acc
    | .sweep _ => acc) none

/-! ## The DNS library (`github.com/miekg/dns`), as far as the handlers use it -/

namespace dns

def RcodeSuccess : Nat := 0
def RcodeServerFailure : Nat := 2

/-- Go `dns.Msg`: the header fields the handlers touch, the question names
and the answer section (records kept as opaque byte strings). -/
structure Msg where
  Id : Nat
  Response : Bool
  Opcode : Nat
  Rcode : Nat
  Question : List String
  Answer : List Bytes
deriving DecidableEq, Repr

/-- Go `new(dns.Msg).SetReply(request)`: a reply header over the request, with
its id and opcode, response code success and at most its first question. -/
def SetReply (request : Msg) : Msg :=
  { Id := request.Id, Response := true, Opcode := request.Opcode, Rcode := RcodeSuccess,
    Question := request.Question.take 1, Answer := [] }

/-- The wire codec of the library: `Pack` and `Unpack` may fail. -/
structure Codec where
  Pack : Msg → Option Bytes
  Unpack : Bytes → Option Msg

end dns

namespace protocol

/-- Go `NewDNSQuery`, with `now` for `time.Now().UnixNano()`. -/
def NewDNSQuery (now : Int) (requestID : Nat) (dnsPacket : Bytes) : Message :=
  { MsgType := TypeDNSQuery, RequestID := requestID, Timestamp := now, Payload := dnsPacket }

/-- Go `NewDNSResponse`, with `now` for `time.Now().UnixNano()`. -/
def NewDNSResponse (now : Int) (requestID : Nat) (dnsPacket : Bytes) : Message :=
  { MsgType := TypeDNSResponse, RequestID := requestID, Timestamp := now, Payload := dnsPacket }

/-- Go `NewHeartbeat`, with `now` for `time.Now().UnixNano()`; the payload is nil. -/
def NewHeartbeat (now : Int) : Message :=
  { MsgType := TypeHeartbeat, RequestID := 0, Timestamp := now, Payload := [] }

/-- Go `NewHeartbeatAck`, with `now` for `time.Now().UnixNano()`; the payload is nil. -/
def NewHeartbeatAck (now : Int) : Message :=
  { MsgType := TypeHeartbeatAck, RequestID := 0, Timestamp := now, Payload := [] }

end protocol

/-! ## Client request handler (`cmd/client/main.go`) -/

namespace client

/-- Go `PendingRequest`. `ResponseChan` is a channel of capacity 1: `none` when
empty, `some m` when it holds `m`. -/
structure PendingRequest where
  ResponseChan : Option Message
  CreatedAt : Int
deriving DecidableEq, Repr

/-- The configuration fields the handler reads. -/
structure Config where
  CacheEnabled : Bool
  CacheTTL : Int

/-- The process-wide variables of the client. `wsConn` is `none` for a nil
connection; `some ok` is a connection whose next `WriteMessage` succeeds iff `ok`. -/
structure State where
  pendingRequests : List (Nat × PendingRequest)
  requestCounter : Nat
  dnsCache : DNSCache
  connected : Int
  wsConn : Option Bool
deriving DecidableEq, Repr

/-- What one call of the handler does to the outside, in order. -/
inductive Event where
  /-- A reply handed to the UDP client: `w.WriteMsg(response)`. -/
  | WriteMsg (response : dns.Msg)
  /-- A binary frame written to the tunnel: `conn.WriteMessage(BinaryMessage, data)`. -/
  | WriteMessage (data : Bytes)
  /-- The `select` on the sink of the pending request with this id and the 10 s timer. -/
  | Await (requestID : Nat)
deriving DecidableEq, Repr

/-- How the `select` of the handler ends. -/
inductive Wait where
  | delivered (responseMsg : Message)
  | timeout
deriving DecidableEq, Repr

/-- What the surroundings contribute to one call of the handler: the clock
readings, the draw of the nonce, the entry the eviction loop meets first, and
the end of the wait. -/
structure Env where
  tLookup : Int
  tQuery : Int
  tCreated : Int
  tStore : Int
  rand : Except Fault Bytes
  pick : Nat
  wait : Wait

/-- Go `sendMessage`: the error returned (if any) and the frames written. -/
def sendMessage (e : crypto.Encryptor) (rand : Except Fault Bytes) (wsConn : Option Bool)
    (msg : Message) : Option Fault × List Event :=
  let data := msg.Encode
  match e.Encrypt rand data with
  | .error err => (some err, [])
  | .ok encryptedData =>
    match wsConn with
    | none => (none, [])
    | some true => (none, [Event.WriteMessage encryptedData])
    | some false => (some (Fault.error "write failed"), [Event.WriteMessage encryptedData])

/-- The `SERVFAIL` reply the handler builds: `SetReply(r)` with `Rcode` set. -/
def servfail (r : dns.Msg) : dns.Msg :=
  { dns.SetReply r with Rcode := dns.RcodeServerFailure }

/-- The cached response the handler can use for `r`, if any: caching enabled,
`getCached` not nil, and the stored bytes unpack. -/
def cacheHit (cfg : Config) (lib : dns.Codec) (env : Env) (st : State) (r : dns.Msg) :
    Option dns.Msg :=
  if cfg.CacheEnabled then
    match getCached st.dnsCache env.tLookup (r.Question.headD "") with
    | some cached => lib.Unpack cached
    | none => none
  else none

/-- Go `handleDNSRequest`: the state left behind and the events, in order. The
deferred `delete(pendingRequests, requestID)` runs on every return after the
entry was registered. -/
def handleDNSRequest (cfg : Config) (lib : dns.Codec) (e : crypto.Encryptor) (env : Env)
    (st : State) (r : dns.Msg) : State × List Event :=
  let queryName := r.Question.headD ""
  match cacheHit cfg lib env st r with
  | some response => (st, [Event.WriteMsg { response with Id := r.Id }])
  | none =>
    if st.connected = 0 then (st, [Event.WriteMsg (servfail r)])
    else
      let requestID := (st.requestCounter + 1) % 2 ^ 32
      let st1 := { st with requestCounter := requestID }
      match lib.Pack r with
      | none => (st1, [])
      | some dnsData =>
        let msg := NewDNSQuery env.tQuery requestID dnsData
        let pending : PendingRequest := { ResponseChan := none, CreatedAt := env.tCreated }
        let st2 := { st1 with pendingRequests := mapStore st1.pendingRequests requestID pending }
        let deferred := fun (s : State) =>
          { s with pendingRequests := mapDelete s.pendingRequests requestID }
        match sendMessage e env.rand st2.wsConn msg with
        | (some _, sent) => (deferred st2, sent ++ [Event.WriteMsg (servfail r)])
        | (none, sent) =>
          match env.wait with
          | .delivered responseMsg =>
            match lib.Unpack responseMsg.Payload with
            | none => (deferred st2, sent ++ [Event.Await requestID])
            | some response =>
              let st3 :=
                if cfg.CacheEnabled ∧ response.Rcode = dns.RcodeSuccess then
                  { st2 with dnsCache := (setCache st2.dnsCache cfg.CacheTTL env.tStore env.pick
                      queryName (some responseMsg.Payload)) }
                else st2
              (deferred st3,
                sent ++ [Event.Await requestID, Event.WriteMsg { response with Id := r.Id }])
          | .timeout =>
            (deferred st2, sent ++ [Event.Await requestID, Event.WriteMsg (servfail r)])

/-- The replies handed to the UDP client among the events. -/
def replies : List Event → List dns.Msg
  | [] => []
  | Event.WriteMsg m :: rest => m :: replies rest
  | _ :: rest => replies rest

/-- The frames written to the tunnel among the events. -/
def frames : List Event → List Bytes
  | [] => []
  | Event.WriteMessage d :: rest => d :: frames rest
  | _ :: rest => frames rest

/-- The waits among the events. -/
def waits : List Event → List Nat
  | [] => []
  | Event.Await i :: rest => i :: waits rest
  | _ :: rest => waits rest

end client

/-! ## Upstream forwarder (`cmd/upstream/main.go`) -/

namespace upstream

/-- What one call of the forwarder does to the outside, in order. -/
inductive Event where
  /-- A call `dnsClient.Exchange(dnsMsg, upstream)`. -/
  | Exchange (upstream : String)
  /-- A call `sendResponse(conn, mutex, responseMsg)`. -/
  | sendResponse (responseMsg : Message)
deriving DecidableEq, Repr

/-- What the surroundings contribute to one call of the forwarder: the outcome
of the exchange at each position of the upstream list (`none` is a non-nil
error) and the clock reading. -/
structure Env where
  exchange : Nat → dns.Msg → String → Option dns.Msg
  now : Int

/-- The `for _, upstream := range config.DNS.Upstreams` loop from position `i`
on: the values of `response` and `err != nil` when it ends, and the exchanges
made. -/
def exchangeLoop (ex : Nat → dns.Msg → String → Option dns.Msg) (dnsMsg : dns.Msg) (i : Nat)
    (upstreams : List String) (response : Option dns.Msg) (err : Bool) :
    Option dns.Msg × Bool × List Event :=
  match upstreams with
  | [] => (response, err, [])
  | u :: rest =>
    match ex i dnsMsg u with
    | some resp => (some resp, false, [Event.Exchange u])
    | none =>
      let out := exchangeLoop ex dnsMsg (i + 1) rest none true
      (out.1, out.2.1, Event.Exchange u :: out.2.2)

/-- Go `handleDNSQuery` for the upstream list `upstreams`: the fault that ended
it (if any) and the events, in order. -/
def handleDNSQuery (lib : dns.Codec) (env : Env) (upstreams : List String) (msg : Message) :
    Option Fault × List Event :=
  match lib.Unpack msg.Payload with
  | none => (none, [])
  | some dnsMsg =>
    let out := exchangeLoop env.exchange dnsMsg 0 upstreams none false
    let response :=
      if out.2.1 then some { dns.SetReply dnsMsg with Rcode := dns.RcodeServerFailure }
      else out.1
    match response with
    | none => (some Fault.nilDereference, out.2.2)
    | some response =>
      match lib.Pack response with
      | none => (none, out.2.2)
      | some responseData =>
        (none, out.2.2 ++ [Event.sendResponse (NewDNSResponse env.now msg.RequestID responseData)])

end upstream

/-- A toy wire codec. `Pack` refuses a message with a question name that is not
fully qualified and otherwise writes the 12-byte header followed by one byte
per question; `Unpack` refuses fewer than 12 bytes and otherwise reads the
header. -/
def toyCodec : dns.Codec where
  Pack := fun m =>
    if m.Question.all (fun n => decide (n.data.getLast? = some '.')) then
      some ([m.Id / 256 % 256, m.Id % 256, (if m.Response then 128 else 0) + m.Opcode % 16 * 8,
        m.Rcode % 16, 0, m.Question.length % 256, 0, 0, 0, 0, 0, 0]
        ++ m.Question.map (fun n => n.length % 256))
    else none
  Unpack := fun b =>
    if b.length < 12 then none
    else some { Id := b.getD 0 0 * 256 + b.getD 1 0, Response := decide (b.getD 2 0 ≥ 128),
                Opcode := b.getD 2 0 / 8 % 16, Rcode := b.getD 3 0 % 16,
                Question := [], Answer := [] }

/-! ## Client multiplexer (`cmd/client/main.go`) -/

namespace client

/-- The non-blocking send `select { case ch <- msg: default: }` on a channel of
capacity 1: an empty channel takes the message, a filled one keeps its own. -/
def trySend (ch : Option Message) (msg : Message) : Option Message :=
  match ch with
  | none => some msg
  | some held => some held

/-- Go `handleDNSResponse`. The table is only read; the send acts on the sink of
the entry found under `msg.RequestID`. -/
def handleDNSResponse (st : State) (msg : Message) : State :=
  match mapLookup st.pendingRequests msg.RequestID with
  | none => st
  | some pending =>
    { st with pendingRequests := st.pendingRequests.map (fun entry =>
        if entry.1 = msg.RequestID then
          (entry.1, { pending with ResponseChan := trySend pending.ResponseChan msg })
        else entry) }

end client

/-! ## Codec lemmas -/

theorem index_of_lt (data : Bytes) (i : Nat) (h : i < data.length) :
    index data i = .ok (data.getD i 0) := by
  simp [index, List.getD_eq_getElem?_getD, List.getElem?_eq_getElem h]

theorem slice_index (data : Bytes) (lo hi i : Nat) (h1 : lo + i < hi) (h2 : hi ≤ data.length) :
    (slice data lo hi >>= fun b => index b i) = .ok (data.getD (lo + i) 0) := by
  have h3 : lo ≤ hi := by omega
  have h4 : lo + i < data.length := by omega
  simp [slice, h3, h2, index, bind, Except.bind, List.getElem?_drop, List.getElem?_take, h1,
    List.getD_eq_getElem?_getD, List.getElem?_eq_getElem h4]

theorem Uint32_slice (data : Bytes) (lo : Nat) (h : lo + 4 ≤ data.length) :
    (slice data lo (lo + 4) >>= binary.Uint32) =
      .ok (data.getD (lo + 3) 0 + data.getD (lo + 2) 0 * 2 ^ 8 + data.getD (lo + 1) 0 * 2 ^ 16
        + data.getD lo 0 * 2 ^ 24) := by
  have h4 : lo + 3 < data.length := by omega
  have h5 : lo + 2 < data.length := by omega
  have h6 : lo + 1 < data.length := by omega
  have h7 : lo < data.length := by omega
  simp [slice, h, index, bind, Except.bind, binary.Uint32, List.getElem?_drop, List.getElem?_take,
    List.getD_eq_getElem?_getD, List.getElem?_eq_getElem, h4, h5, h6, h7, pure, Except.pure]

theorem Uint64_slice (data : Bytes) (lo : Nat) (h : lo + 8 ≤ data.length) :
    (slice data lo (lo + 8) >>= binary.Uint64) =
      .ok (data.getD (lo + 7) 0 + data.getD (lo + 6) 0 * 2 ^ 8 + data.getD (lo + 5) 0 * 2 ^ 16
        + data.getD (lo + 4) 0 * 2 ^ 24 + data.getD (lo + 3) 0 * 2 ^ 32
        + data.getD (lo + 2) 0 * 2 ^ 40 + data.getD (lo + 1) 0 * 2 ^ 48
        + data.getD lo 0 * 2 ^ 56) := by
  have h0 : lo < data.length := by omega
  have h1 : lo + 1 < data.length := by omega
  have h2 : lo + 2 < data.length := by omega
  have h3 : lo + 3 < data.length := by omega
  have h4 : lo + 4 < data.length := by omega
  have h5 : lo + 5 < data.length := by omega
  have h6 : lo + 6 < data.length := by omega
  have h7 : lo + 7 < data.length := by omega
  simp [slice, h, index, bind, Except.bind, binary.Uint64, List.getElem?_drop, List.getElem?_take,
    List.getD_eq_getElem?_getD, List.getElem?_eq_getElem, h0, h1, h2, h3, h4, h5, h6, h7, pure,
    Except.pure]

theorem Decode_short (data : Bytes) (h : data.length < 17) :
    Decode data = .error (Fault.error "message too short") := by
  simp [Decode, h, bind, Except.bind, throw, throwThe, MonadExceptOf.throw]

theorem Decode_long (data : Bytes) (h : 17 ≤ data.length) :
    Decode data =
      if data.length < 17 + declaredLen data then .error (Fault.error "payload incomplete")
      else if 17 ≤ (17 + declaredLen data) % 2 ^ 32 then
        .ok (headerOf data (copy (List.replicate (declaredLen data) 0)
          ((data.take ((17 + declaredLen data) % 2 ^ 32)).drop 17)))
      else .error Fault.outOfRange := by
  have e0 := index_of_lt data 0 (by omega)
  have e1 := Uint32_slice data 1 (by omega)
  have e2 := Uint64_slice data 5 (by omega)
  have e3 := Uint32_slice data 13 (by omega)
  simp only [Nat.reduceAdd] at e1 e2 e3
  have hd : data.getD 16 0 + data.getD 15 0 * 2 ^ 8 + data.getD 14 0 * 2 ^ 16
      + data.getD 13 0 * 2 ^ 24 = declaredLen data := by
    simp only [declaredLen]; omega
  rw [hd] at e3
  have hlt : ¬ data.length < 17 := by omega
  unfold Decode
  simp only [hlt, if_false]
  rw [e0, e1, e2, e3]
  have hmod : (17 + declaredLen data) % 2 ^ 32 ≤ 17 + declaredLen data := Nat.mod_le _ _
  by_cases hc : data.length < 17 + declaredLen data
  · simp [hc, bind, Except.bind, throw, throwThe, MonadExceptOf.throw, pure, Except.pure]
  · have hle : (17 + declaredLen data) % 2 ^ 32 ≤ data.length := by omega
    by_cases hw : 17 ≤ (17 + declaredLen data) % 2 ^ 32
    · have hw2 : 17 ≤ (17 + declaredLen data) % 4294967296 := hw
      have hle2 : (17 + declaredLen data) % 4294967296 ≤ data.length := hle
      simp [hc, hw2, hle2, slice, headerOf, bind, Except.bind, pure, Except.pure]
    · have hw2 : ¬ 17 ≤ (17 + declaredLen data) % 4294967296 := hw
      simp [hc, hw2, slice, bind, Except.bind, pure, Except.pure]

theorem copy_replicate (n : Nat) (p : Bytes) (h : p.length = n) :
    copy (List.replicate n 0) p = p := by
  simp [copy, h]

theorem Encode_eq (m : Message) :
    m.Encode = [m.MsgType % 256] ++ binary.PutUint32 m.RequestID
      ++ binary.PutUint64 (toUint64 m.Timestamp)
      ++ binary.PutUint32 (m.Payload.length % 2 ^ 32) ++ m.Payload := by
  simp [Message.Encode, copy_replicate]

theorem Encode_length (m : Message) : m.Encode.length = 17 + m.Payload.length := by
  simp [Encode_eq, binary.PutUint32, binary.PutUint64]; omega

theorem declaredLen_Encode (m : Message) :
    declaredLen m.Encode = m.Payload.length % 2 ^ 32 := by
  simp [Encode_eq, binary.PutUint32, binary.PutUint64, declaredLen]
  omega

theorem toInt64_toUint64 (t : Int) (h1 : -(2 : Int) ^ 63 ≤ t) (h2 : t < 2 ^ 63) :
    toInt64 (toUint64 t) = t := by
  unfold toInt64 toUint64
  split_ifs with h <;> omega

theorem headerOf_Encode (m : Message) (h : m.WellTyped) (p : Bytes) :
    headerOf m.Encode p = { m with Payload := p } := by
  obtain ⟨h1, h2, h3, h4⟩ := h
  have hu : toUint64 m.Timestamp < 2 ^ 64 := by unfold toUint64; omega
  have ht := toInt64_toUint64 m.Timestamp h3 h4
  simp only [Encode_eq, binary.PutUint32, binary.PutUint64, headerOf]
  simp
  refine ⟨h1, by omega, ?_⟩
  generalize toUint64 m.Timestamp = u at hu ht ⊢
  have hs : u % 256 + u / 256 % 256 * 256 + u / 65536 % 256 * 65536
      + u / 16777216 % 256 * 16777216 + u / 4294967296 % 256 * 4294967296
      + u / 1099511627776 % 256 * 1099511627776
      + u / 281474976710656 % 256 * 281474976710656
      + u / 72057594037927936 % 256 * 72057594037927936 = u := by omega
  rw [hs, ht]

/-- Round trip on every message whose encoding stays below `2^32` bytes. -/
theorem Decode_Encode_roundtrip (m : Message) (h : m.WellTyped)
    (hlen : 17 + m.Payload.length < 2 ^ 32) : Decode m.Encode = .ok m := by
  have hl := Encode_length m
  have hd := declaredLen_Encode m
  have hd2 : declaredLen m.Encode = m.Payload.length := by rw [hd]; omega
  rw [Decode_long _ (by omega), hd2, hl]
  have hm : (17 + m.Payload.length) % 2 ^ 32 = 17 + m.Payload.length := Nat.mod_eq_of_lt hlen
  rw [hm]
  have hsrc : (m.Encode.take (17 + m.Payload.length)).drop 17 = m.Payload := by
    rw [← hl, List.take_length]
    simp [Encode_eq, binary.PutUint32, binary.PutUint64]
  rw [hsrc, copy_replicate _ _ rfl, headerOf_Encode m h]
  simp

/-! ## Codec: the claims -/

/-- C1 (evaluation at the failing input). A well-typed message whose payload
has `2^32 - 17` bytes, which is shorter than `2^32`, does not survive the round
trip: `Decode` of its encoding stops with a slice-bounds fault, because the
bound `17+payloadLen` of `data[17:17+payloadLen]` is computed in `uint32` and
wraps to 0. -/
theorem Decode_Encode_large_payload_fault :
    (Message.mk 1 0 0 (List.replicate 4294967279 0)).WellTyped ∧
    (Message.mk 1 0 0 (List.replicate 4294967279 0)).Payload.length < 2 ^ 32 ∧
    Decode (Message.mk 1 0 0 (List.replicate 4294967279 0)).Encode
      = .error Fault.outOfRange := by
  have hl := Encode_length (Message.mk 1 0 0 (List.replicate 4294967279 0))
  have hd := declaredLen_Encode (Message.mk 1 0 0 (List.replicate 4294967279 0))
  have hp : (Message.mk 1 0 0 (List.replicate 4294967279 0)).Payload.length = 4294967279 :=
    List.length_replicate _ _
  rw [hp] at hl hd
  refine ⟨⟨by norm_num, by norm_num, by norm_num, by norm_num⟩, by rw [hp]; norm_num, ?_⟩
  rw [Decode_long _ (by omega), hd, hl]
  norm_num

/-- C2 (counterexample). An 18-byte buffer that declares an empty payload, and
so carries one trailing byte, is decoded without error. -/
theorem Decode_accepts_trailing_byte :
    [2, 0, 0, 0, 7, 0, 0, 0, 0, 0, 0, 0, 5, 0, 0, 0, 0, 9].length
        > 17 + declaredLen [2, 0, 0, 0, 7, 0, 0, 0, 0, 0, 0, 0, 5, 0, 0, 0, 0, 9] ∧
    Decode [2, 0, 0, 0, 7, 0, 0, 0, 0, 0, 0, 0, 5, 0, 0, 0, 0, 9]
      = .ok { MsgType := 2, RequestID := 7, Timestamp := 5, Payload := [] } := by
  decide

/-- C2 (amended). `Decode` returns an error exactly when the buffer is shorter
than 17 bytes or shorter than 17 plus the payload length declared in its bytes
13..16. A buffer with extra trailing bytes after the declared payload is not an
error: when `17 + declared length < 2^32`, `Decode` succeeds and returns the
header fields together with the declared-length payload, ignoring what follows. -/
theorem Decode_error_iff_short (data : Bytes) :
    ((∃ e, Decode data = .error (Fault.error e)) ↔
        (data.length < 17 ∨ data.length < 17 + declaredLen data)) ∧
    (17 + declaredLen data < data.length → 17 + declaredLen data < 2 ^ 32 →
        Decode data = .ok (headerOf data ((data.drop 17).take (declaredLen data)))) := by
  by_cases h17 : data.length < 17
  · refine ⟨⟨fun _ => Or.inl h17, fun _ => ⟨_, Decode_short data h17⟩⟩, fun h => ?_⟩
    omega
  · have hlong := Decode_long data (by omega)
    constructor
    · constructor
      · rintro ⟨e, he⟩
        right
        by_contra hc
        rw [hlong, if_neg hc] at he
        split_ifs at he
        all_goals simp at he
      · intro h
        have hc : data.length < 17 + declaredLen data := by omega
        exact ⟨_, by rw [hlong, if_pos hc]⟩
    · intro h1 h2
      have hm : (17 + declaredLen data) % 2 ^ 32 = 17 + declaredLen data := Nat.mod_eq_of_lt h2
      rw [hlong, if_neg (by omega), hm, if_pos (by omega)]
      have hsrc : (data.take (17 + declaredLen data)).drop 17
          = (data.drop 17).take (declaredLen data) := by
        rw [List.drop_take]; simp
      rw [hsrc, copy_replicate]
      simp
      omega

/-- C2 (amended), at a concrete buffer with one trailing byte. -/
theorem Decode_error_iff_short_witness :
    Decode [2, 0, 0, 0, 7, 0, 0, 0, 0, 0, 0, 0, 5, 0, 0, 0, 1, 8, 9]
      = .ok (headerOf [2, 0, 0, 0, 7, 0, 0, 0, 0, 0, 0, 0, 5, 0, 0, 0, 1, 8, 9] [8]) :=
  (Decode_error_iff_short [2, 0, 0, 0, 7, 0, 0, 0, 0, 0, 0, 0, 5, 0, 0, 0, 1, 8, 9]).2
    (by decide) (by decide)

/-- C3. A buffer shorter than 17 bytes, or shorter than 17 plus the big-endian
payload length in its bytes 13..16, makes `Decode` return an error and no
message: "message too short" in the first case, "payload incomplete" otherwise.
The result is a returned error, not the out-of-range fault, so no index or
slice expression left the buffer. -/
theorem Decode_short_buffer_returns_error (data : Bytes)
    (h : data.length < 17 ∨ data.length < 17 + declaredLen data) :
    Decode data = .error (Fault.error
      (if data.length < 17 then "message too short" else "payload incomplete")) := by
  by_cases h17 : data.length < 17
  · rw [Decode_short data h17, if_pos h17]
  · have hc : data.length < 17 + declaredLen data := by omega
    rw [Decode_long data (by omega), if_pos hc, if_neg h17]

/-- C3 at a 19-byte buffer that declares a 3-byte payload. -/
theorem Decode_short_buffer_returns_error_witness :
    Decode [1, 0, 0, 0, 77, 0, 0, 0, 0, 0, 0, 0, 0, 0, 0, 0, 3, 1, 2]
      = .error (Fault.error "payload incomplete") :=
  Decode_short_buffer_returns_error [1, 0, 0, 0, 77, 0, 0, 0, 0, 0, 0, 0, 0, 0, 0, 0, 3, 1, 2]
    (by decide)

/-- C4. For a well-typed message with a payload shorter than `2^32` bytes the
encoding has exactly `17 + len(payload)` bytes: byte 0 is the kind, bytes 1..4
are the request id big-endian, bytes 5..12 are the timestamp as a 64-bit
two's-complement big-endian value, bytes 13..16 are the payload length
big-endian, and the bytes from 17 on are the payload. -/
theorem Encode_layout (m : Message) (h : m.WellTyped) (hlen : m.Payload.length < 2 ^ 32) :
    m.Encode.length = 17 + m.Payload.length ∧
    bytesAt m.Encode 0 1 = [m.MsgType] ∧
    (∀ b ∈ bytesAt m.Encode 0 17, b < 256) ∧
    (bytesAt m.Encode 1 5).length = 4 ∧ beValue (bytesAt m.Encode 1 5) = m.RequestID ∧
    (bytesAt m.Encode 5 13).length = 8 ∧
    (beValue (bytesAt m.Encode 5 13) : Int)
      = (if 0 ≤ m.Timestamp then m.Timestamp else m.Timestamp + 2 ^ 64) ∧
    (bytesAt m.Encode 13 17).length = 4 ∧
    beValue (bytesAt m.Encode 13 17) = m.Payload.length ∧
    m.Encode.drop 17 = m.Payload := by
  obtain ⟨h1, h2, h3, h4⟩ := h
  have hu : toUint64 m.Timestamp < 2 ^ 64 := by unfold toUint64; omega
  have hv : (toUint64 m.Timestamp : Int)
      = (if 0 ≤ m.Timestamp then m.Timestamp else m.Timestamp + 2 ^ 64) := by
    unfold toUint64; split_ifs <;> omega
  refine ⟨Encode_length m, ?_, ?_, ?_, ?_, ?_, ?_, ?_, ?_, ?_⟩
  · simp [Encode_eq, binary.PutUint32, binary.PutUint64, bytesAt]; omega
  · simp [Encode_eq, binary.PutUint32, binary.PutUint64, bytesAt]
    omega
  · simp [Encode_eq, binary.PutUint32, binary.PutUint64, bytesAt]
  · simp [Encode_eq, binary.PutUint32, binary.PutUint64, bytesAt, beValue]; omega
  · simp [Encode_eq, binary.PutUint32, binary.PutUint64, bytesAt]
  · rw [← hv]
    have hk : beValue (bytesAt m.Encode 5 13) = toUint64 m.Timestamp := by
      simp only [Encode_eq, binary.PutUint32, binary.PutUint64, bytesAt, beValue]
      generalize toUint64 m.Timestamp = u at hu
      simp
      omega
    rw [hk]
  · simp [Encode_eq, binary.PutUint32, binary.PutUint64, bytesAt]
  · simp [Encode_eq, binary.PutUint32, binary.PutUint64, bytesAt, beValue]; omega
  · simp [Encode_eq, binary.PutUint32, binary.PutUint64]

/-- C4 at a message with a negative timestamp. -/
theorem Encode_layout_witness :
    (Message.mk 1 77 (-5) [1, 2, 3]).Encode.length = 17 + 3 ∧
    (beValue (bytesAt (Message.mk 1 77 (-5) [1, 2, 3]).Encode 5 13) : Int) = -5 + 2 ^ 64 ∧
    (Message.mk 1 77 (-5) [1, 2, 3]).Encode.drop 17 = [1, 2, 3] :=
  have w := Encode_layout (Message.mk 1 77 (-5) [1, 2, 3]) (by decide) (by decide)
  ⟨w.1, w.2.2.2.2.2.2.1, w.2.2.2.2.2.2.2.2.2⟩

/-! ## AEAD envelope -/

open crypto

theorem toyAEAD_lawful : toyAEAD.Lawful := by
  intro nonce plaintext _
  simp [toyAEAD]

/-- C5. Over an AEAD whose `Open` inverts `Seal`, for every plaintext and every
12-byte nonce drawn, `Encrypt` returns `nonce ‖ Seal(nonce, p)` and `Decrypt`
of that output succeeds and returns the plaintext. -/
theorem Decrypt_Encrypt (e : Encryptor) (h : e.gcm.Lawful) (nonce p : Bytes)
    (hn : nonce.length = NonceSize) :
    e.Encrypt (.ok nonce) p = .ok (nonce ++ e.gcm.sealed nonce p) ∧
    e.Decrypt (nonce ++ e.gcm.sealed nonce p) = .ok p := by
  refine ⟨rfl, ?_⟩
  have hlt : ¬ (nonce ++ e.gcm.sealed nonce p).length < NonceSize := by
    simp [hn]
  have ht : (nonce ++ e.gcm.sealed nonce p).take NonceSize = nonce := by
    rw [← hn]; simp
  have hd : (nonce ++ e.gcm.sealed nonce p).drop NonceSize = e.gcm.sealed nonce p := by
    rw [← hn]; simp
  simp only [Encryptor.Decrypt, hlt, if_false, ht, hd, h nonce p hn]

/-- C5 with the toy AEAD, nonce `1..12` and plaintext `[7, 8, 9]`. -/
theorem Decrypt_Encrypt_witness :
    (Encryptor.mk toyAEAD).Decrypt
      ([1, 2, 3, 4, 5, 6, 7, 8, 9, 10, 11, 12]
        ++ toyAEAD.sealed [1, 2, 3, 4, 5, 6, 7, 8, 9, 10, 11, 12] [7, 8, 9]) = .ok [7, 8, 9] :=
  (Decrypt_Encrypt (Encryptor.mk toyAEAD) toyAEAD_lawful [1, 2, 3, 4, 5, 6, 7, 8, 9, 10, 11, 12]
    [7, 8, 9] (by decide)).2

/-! ## Map lemmas -/

theorem rangeFirst_mem {κ ν : Type} (m : List (κ × ν)) (pick : Nat) (h : m ≠ []) :
    ∃ k, rangeFirst m pick = some k ∧ k ∈ m.map Prod.fst := by
  have hpos : 0 < m.length := List.length_pos.mpr h
  have hlt : pick % m.length < m.length := Nat.mod_lt _ hpos
  refine ⟨(m[pick % m.length]).1, ?_, ?_⟩
  · simp [rangeFirst, List.getElem?_eq_getElem hlt]
  · exact List.mem_map.mpr ⟨_, List.getElem_mem hlt, rfl⟩

section MapLemmas

variable {κ ν : Type} [DecidableEq κ]

theorem mapDelete_length_le (m : List (κ × ν)) (k : κ) : (mapDelete m k).length ≤ m.length :=
  List.length_filter_le _ _

theorem mapDelete_length_lt (m : List (κ × ν)) (k : κ) (h : k ∈ m.map Prod.fst) :
    (mapDelete m k).length < m.length := by
  obtain ⟨e, he, hk⟩ := List.mem_map.mp h
  apply List.length_filter_lt_length_iff_exists.mpr
  exact ⟨e, he, by simp [hk]⟩

theorem mapDelete_keys_nodup (m : List (κ × ν)) (k : κ) (h : (m.map Prod.fst).Nodup) :
    ((mapDelete m k).map Prod.fst).Nodup :=
  h.sublist ((List.filter_sublist m).map Prod.fst)

theorem not_mem_keys_mapDelete (m : List (κ × ν)) (k : κ) :
    k ∉ (mapDelete m k).map Prod.fst := by
  simp [mapDelete]

theorem mapStore_keys_nodup (m : List (κ × ν)) (k : κ) (v : ν) (h : (m.map Prod.fst).Nodup) :
    ((mapStore m k v).map Prod.fst).Nodup := by
  simp only [mapStore, List.map_cons, List.nodup_cons]
  exact ⟨not_mem_keys_mapDelete m k, mapDelete_keys_nodup m k h⟩

theorem mapStore_length_le (m : List (κ × ν)) (k : κ) (v : ν) :
    (mapStore m k v).length ≤ m.length + 1 := by
  simp only [mapStore, List.length_cons]
  have := mapDelete_length_le m k
  omega

theorem mapLookup_eq_some_iff (m : List (κ × ν)) (h : (m.map Prod.fst).Nodup) (k : κ) (v : ν) :
    mapLookup m k = some v ↔ (k, v) ∈ m := by
  induction m with
  | nil => simp [mapLookup]
  | cons e rest ih =>
    obtain ⟨k', v'⟩ := e
    simp only [List.map_cons, List.nodup_cons] at h
    by_cases hk : k' = k
    · subst hk
      simp only [mapLookup, if_true, List.mem_cons, Prod.mk.injEq, true_and, Option.some.injEq]
      constructor
      · intro hv; exact Or.inl hv.symm
      · rintro (hv | hmem)
        · exact hv.symm
        · exact absurd (List.mem_map.mpr ⟨_, hmem, rfl⟩) h.1
    · simp only [mapLookup, if_neg hk, ih h.2, List.mem_cons, Prod.mk.injEq]
      constructor
      · intro hmem; exact Or.inr hmem
      · rintro (⟨h1, _⟩ | hmem)
        · exact absurd h1.symm hk
        · exact hmem

theorem mapLookup_eq_none_iff (m : List (κ × ν)) (k : κ) :
    mapLookup m k = none ↔ k ∉ m.map Prod.fst := by
  induction m with
  | nil => simp [mapLookup]
  | cons e rest ih =>
    obtain ⟨k', v'⟩ := e
    by_cases hk : k' = k
    · simp [mapLookup, hk]
    · simp only [mapLookup, if_neg hk, ih, List.map_cons, List.mem_cons, not_or]
      constructor
      · intro h; exact ⟨fun h1 => hk h1.symm, h⟩
      · intro h; exact h.2

theorem mapLookup_mapDelete (m : List (κ × ν)) (k' k : κ) :
    mapLookup (mapDelete m k') k = if k' = k then none else mapLookup m k := by
  induction m with
  | nil => simp [mapLookup, mapDelete]
  | cons e rest ih =>
    obtain ⟨k0, v0⟩ := e
    simp only [mapDelete] at ih
    by_cases h0 : k0 = k'
    · subst h0
      simp only [mapDelete, ne_eq, not_true_eq_false, decide_False, Bool.false_eq_true,
        not_false_eq_true, List.filter_cons_of_neg, ih, mapLookup]
      split_ifs <;> rfl
    · by_cases h1 : k0 = k
      · subst h1
        simp [mapDelete, h0, mapLookup, Ne.symm h0]
      · simp [mapDelete, h0, mapLookup, h1]
        simpa [mapDelete] using ih

theorem mapLookup_mapStore (m : List (κ × ν)) (k' k : κ) (v : ν) :
    mapLookup (mapStore m k' v) k = if k' = k then some v else mapLookup m k := by
  by_cases h : k' = k
  · simp [mapStore, mapLookup, h]
  · simp [mapStore, mapLookup, h, mapLookup_mapDelete]

end MapLemmas

/-! ## Client DNS cache -/

theorem setCache_keys_nodup (c : DNSCache) (ttl now : Int) (pick : Nat) (key : String)
    (data : Option Bytes) (h : (c.entries.map Prod.fst).Nodup) :
    ((setCache c ttl now pick key data).entries.map Prod.fst).Nodup := by
  simp only [setCache]
  apply mapStore_keys_nodup
  split_ifs
  · split
    · exact mapDelete_keys_nodup _ _ h
    · exact h
  · exact h

theorem cleanupCache_keys_nodup (c : DNSCache) (now : Int) (h : (c.entries.map Prod.fst).Nodup) :
    ((cleanupCache c now).entries.map Prod.fst).Nodup :=
  h.sublist ((List.filter_sublist c.entries).map Prod.fst)

theorem apply_keys_nodup (ttl : Int) (c : DNSCache) (op : CacheOp)
    (h : (c.entries.map Prod.fst).Nodup) :
    ((CacheOp.apply ttl c op).entries.map Prod.fst).Nodup := by
  cases op with
  | set key data now pick => exact setCache_keys_nodup c ttl now pick key data h
  | sweep now => exact cleanupCache_keys_nodup c now h

theorem runCache_keys_nodup (ttl : Int) (ops : List CacheOp) (c : DNSCache)
    (h : (c.entries.map Prod.fst).Nodup) :
    ((runCache ttl c ops).entries.map Prod.fst).Nodup := by
  induction ops generalizing c with
  | nil => exact h
  | cons op rest ih => exact ih _ (apply_keys_nodup ttl c op h)

theorem setCache_size_le (c : DNSCache) (ttl now : Int) (pick : Nat) (key : String)
    (data : Option Bytes) (hC : 0 < c.maxSize) (h : (c.entries.length : Int) ≤ c.maxSize) :
    (setCache c ttl now pick key data).maxSize = c.maxSize ∧
    ((setCache c ttl now pick key data).entries.length : Int) ≤ c.maxSize := by
  refine ⟨rfl, ?_⟩
  simp only [setCache]
  by_cases hfull : (c.entries.length : Int) ≥ c.maxSize
  · have hne : c.entries ≠ [] := by
      intro h0; rw [h0] at hfull; simp at hfull; omega
    obtain ⟨k, hk, hmem⟩ := rangeFirst_mem c.entries pick hne
    have h1 := mapDelete_length_lt c.entries k hmem
    have h2 := mapStore_length_le (mapDelete c.entries k) key
      { Data := data, ExpiresAt := now + ttl }
    simp only [hfull, if_true, hk]
    omega
  · have h2 := mapStore_length_le c.entries key { Data := data, ExpiresAt := now + ttl }
    simp only [hfull, if_false]
    omega

theorem cleanupCache_size_le (c : DNSCache) (now : Int) :
    (cleanupCache c now).maxSize = c.maxSize ∧
    (cleanupCache c now).entries.length ≤ c.entries.length :=
  ⟨rfl, List.length_filter_le _ _⟩

theorem runCache_size_le (ttl : Int) (ops : List CacheOp) (c : DNSCache) (hC : 0 < c.maxSize)
    (h : (c.entries.length : Int) ≤ c.maxSize) :
    (runCache ttl c ops).maxSize = c.maxSize ∧
    ((runCache ttl c ops).entries.length : Int) ≤ c.maxSize := by
  induction ops generalizing c with
  | nil => exact ⟨rfl, h⟩
  | cons op rest ih =>
    have step : (CacheOp.apply ttl c op).maxSize = c.maxSize ∧
        ((CacheOp.apply ttl c op).entries.length : Int) ≤ c.maxSize := by
      cases op with
      | set key data now pick => exact setCache_size_le c ttl now pick key data hC h
      | sweep now =>
        have := cleanupCache_size_le c now
        exact ⟨this.1, by have := this.2; simp only [CacheOp.apply]; omega⟩
    have := ih (CacheOp.apply ttl c op) (by rw [step.1]; exact hC) (by rw [step.1]; exact step.2)
    rw [step.1] at this
    exact this

/-- C6. For every positive capacity `C`, every TTL and every sequence of
`setCache` calls (whatever entry the eviction loop meets first) and sweeper
runs applied to the empty cache, the entries have pairwise distinct keys and
their number is at most `C`; every prefix of the sequence is such a sequence,
so the bound holds after every operation. -/
theorem cache_size_le_capacity (C : Int) (hC : 0 < C) (ttl : Int) (ops : List CacheOp) :
    ((runCache ttl (emptyCache C) ops).entries.map Prod.fst).Nodup ∧
    ((runCache ttl (emptyCache C) ops).entries.length : Int) ≤ C := by
  refine ⟨runCache_keys_nodup ttl ops _ (by simp [emptyCache]), ?_⟩
  exact (runCache_size_le ttl ops (emptyCache C) hC (by simp [emptyCache]; omega)).2

/-- C6 with capacity 2: a third key and a rewrite of a present key at capacity. -/
theorem cache_size_le_capacity_witness :
    ((runCache 300 (emptyCache 2)
      [.set "a." (some [1]) 0 0, .set "b." (some [2]) 1 0, .set "c." (some [3]) 2 5,
       .set "c." (some [4]) 3 1, .sweep 400]).entries.length : Int) ≤ 2 :=
  (cache_size_le_capacity 2 (by decide) 300
    [.set "a." (some [1]) 0 0, .set "b." (some [2]) 1 0, .set "c." (some [3]) 2 5,
     .set "c." (some [4]) 3 1, .sweep 400]).2

theorem lastSet_append (ops : List CacheOp) (op : CacheOp) (k : String) :
    lastSet (ops ++ [op]) k =
      match op with
      | .set key data now _ => if key = k then some (data, now) else lastSet ops k
      | .sweep _ => lastSet ops k := by
  simp only [lastSet, List.foldl_append, List.foldl_cons, List.foldl_nil]

theorem runCache_append (ttl : Int) (c : DNSCache) (ops : List CacheOp) (op : CacheOp) :
    runCache ttl c (ops ++ [op]) = CacheOp.apply ttl (runCache ttl c ops) op := by
  simp only [runCache, List.foldl_append, List.foldl_cons, List.foldl_nil]

theorem setCache_lookup (c : DNSCache) (ttl now : Int) (pick : Nat) (key k : String)
    (data : Option Bytes) (e : CacheEntry)
    (h : mapLookup (setCache c ttl now pick key data).entries k = some e) :
    (key = k ∧ e = { Data := data, ExpiresAt := now + ttl }) ∨
    (key ≠ k ∧ mapLookup c.entries k = some e) := by
  simp only [setCache, mapLookup_mapStore] at h
  by_cases hk : key = k
  · left
    rw [if_pos hk] at h
    exact ⟨hk, (Option.some.inj h).symm⟩
  · right
    rw [if_neg hk] at h
    refine ⟨hk, ?_⟩
    split_ifs at h
    · split at h
      · rw [mapLookup_mapDelete] at h
        split_ifs at h
        exact h
      · exact h
    · exact h

theorem cleanupCache_lookup (c : DNSCache) (now : Int) (k : String) (e : CacheEntry)
    (hn : (c.entries.map Prod.fst).Nodup)
    (h : mapLookup (cleanupCache c now).entries k = some e) :
    mapLookup c.entries k = some e := by
  rw [mapLookup_eq_some_iff _ (cleanupCache_keys_nodup c now hn)] at h
  rw [mapLookup_eq_some_iff _ hn]
  exact List.mem_of_mem_filter h

/-- Every entry in the cache was written by the most recent `setCache` of its key. -/
theorem runCache_tracks_lastSet (C ttl : Int) (ops : List CacheOp) (k : String) (e : CacheEntry)
    (h : mapLookup (runCache ttl (emptyCache C) ops).entries k = some e) :
    ∃ now, lastSet ops k = some (e.Data, now) ∧ e.ExpiresAt = now + ttl := by
  induction ops using List.reverseRecOn generalizing e with
  | nil => simp [runCache, emptyCache, mapLookup] at h
  | append_singleton ops op ih =>
    rw [runCache_append] at h
    rw [lastSet_append]
    cases op with
    | set key data now pick =>
      rcases setCache_lookup _ ttl now pick key k data e h with ⟨hk, he⟩ | ⟨hk, he⟩
      · exact ⟨now, by simp [hk, he], by simp [he]⟩
      · obtain ⟨n0, h1, h2⟩ := ih e he
        exact ⟨n0, by simp [hk, h1], h2⟩
    | sweep now =>
      have hn := runCache_keys_nodup ttl ops (emptyCache C) (by simp [emptyCache])
      exact ih e (cleanupCache_lookup _ now k e hn h)

/-- C7. After any sequence of `setCache` calls and sweeper runs on the empty
cache, a lookup `getCached(k)` at instant `t` that returns bytes `d` returns the
data of the most recent `setCache(k, ·)`, and `t` is not after that insert's
expiry (its clock reading plus the TTL). A key never inserted is looked up as
nil, and so is a key whose most recent insert expired before `t`. -/
theorem getCached_sound (C ttl : Int) (ops : List CacheOp) (k : String) (t : Int) :
    (∀ d, getCached (runCache ttl (emptyCache C) ops) t k = some d →
      ∃ now, lastSet ops k = some (some d, now) ∧ t ≤ now + ttl) ∧
    (lastSet ops k = none → getCached (runCache ttl (emptyCache C) ops) t k = none) ∧
    (∀ d now, lastSet ops k = some (d, now) → now + ttl < t →
      getCached (runCache ttl (emptyCache C) ops) t k = none) := by
  refine ⟨?_, ?_, ?_⟩
  · intro d hd
    unfold getCached at hd
    split at hd
    · simp at hd
    · rename_i entry hentry
      obtain ⟨now, h1, h2⟩ := runCache_tracks_lastSet C ttl ops k entry hentry
      split_ifs at hd with hexp
      refine ⟨now, by rw [h1, hd], by omega⟩
  · intro hnone
    unfold getCached
    split
    · rfl
    · rename_i entry hentry
      obtain ⟨now, h1, _⟩ := runCache_tracks_lastSet C ttl ops k entry hentry
      rw [hnone] at h1
      simp at h1
  · intro d now hlast hexp
    unfold getCached
    split
    · rfl
    · rename_i entry hentry
      obtain ⟨n0, h1, h2⟩ := runCache_tracks_lastSet C ttl ops k entry hentry
      rw [hlast] at h1
      have hn : now = n0 := (Prod.mk.inj (Option.some.inj h1)).2
      rw [if_pos (by omega)]

/-- C7 at a cache of capacity 2 after two inserts of the same key. -/
theorem getCached_sound_witness :
    ∃ now, lastSet [.set "a." (some [1]) 0 0, .set "b." (some [2]) 1 0,
        .set "a." (some [3]) 2 0] "a." = some (some [3], now) ∧ (10 : Int) ≤ now + 300 :=
  (getCached_sound 2 300 [.set "a." (some [1]) 0 0, .set "b." (some [2]) 1 0,
    .set "a." (some [3]) 2 0] "a." 10).1 [3] (by decide)

/-! ## Client request handler -/

open client

theorem replies_append (a b : List client.Event) : replies (a ++ b) = replies a ++ replies b := by
  induction a with
  | nil => rfl
  | cons x rest ih => cases x <;> simp [replies, ih]

theorem sendMessage_replies (e : Encryptor) (rand : Except Fault Bytes) (wsConn : Option Bool)
    (msg : Message) : replies (sendMessage e rand wsConn msg).2 = [] := by
  unfold sendMessage
  cases he : e.Encrypt rand msg.Encode with
  | error err => simp [he, replies]
  | ok d =>
    cases wsConn with
    | none => simp [he, replies]
    | some ok => cases ok <;> simp [he, replies]

/-- C8. While the connection flag is down (`connected = 0`), `handleDNSRequest`
leaves the whole client state, in particular the pending-request table and the
request-id counter, unchanged, writes no frame to the tunnel and waits on no
sink. Without a usable cache hit its only event is one reply to the UDP client,
which is a response with the query's id and response code `SERVFAIL`; with a
usable hit its only event is the cached response under the query's id. -/
theorem handleDNSRequest_down (cfg : client.Config) (lib : dns.Codec) (e : Encryptor)
    (env : client.Env) (st : client.State) (r : dns.Msg) (h : st.connected = 0) :
    (handleDNSRequest cfg lib e env st r).1 = st ∧
    (handleDNSRequest cfg lib e env st r).1.pendingRequests = st.pendingRequests ∧
    (handleDNSRequest cfg lib e env st r).1.requestCounter = st.requestCounter ∧
    frames (handleDNSRequest cfg lib e env st r).2 = [] ∧
    waits (handleDNSRequest cfg lib e env st r).2 = [] ∧
    (cacheHit cfg lib env st r = none →
      ∃ m, (handleDNSRequest cfg lib e env st r).2 = [client.Event.WriteMsg m] ∧
        m.Id = r.Id ∧ m.Rcode = dns.RcodeServerFailure ∧ m.Response = true) ∧
    (∀ response, cacheHit cfg lib env st r = some response →
      (handleDNSRequest cfg lib e env st r).2
        = [client.Event.WriteMsg { response with Id := r.Id }]) := by
  cases hhit : cacheHit cfg lib env st r with
  | none =>
    have hout : handleDNSRequest cfg lib e env st r = (st, [client.Event.WriteMsg (servfail r)]) := by
      simp [handleDNSRequest, hhit, h]
    rw [hout]
    refine ⟨rfl, rfl, rfl, rfl, rfl, fun _ => ⟨servfail r, rfl, rfl, rfl, rfl⟩, ?_⟩
    intro response hr
    cases hr
  | some resp =>
    have hout : handleDNSRequest cfg lib e env st r
        = (st, [client.Event.WriteMsg { resp with Id := r.Id }]) := by
      simp [handleDNSRequest, hhit]
    rw [hout]
    refine ⟨rfl, rfl, rfl, rfl, rfl, fun hn => (by cases hn), ?_⟩
    intro response hr
    cases hr
    rfl

/-- C8 at a query with id 7 on a client whose cache is disabled. -/
theorem handleDNSRequest_down_witness :
    (handleDNSRequest ⟨false, 300⟩ toyCodec ⟨toyAEAD⟩
        ⟨0, 0, 0, 0, .ok [1, 2, 3, 4, 5, 6, 7, 8, 9, 10, 11, 12], 0, .timeout⟩
        ⟨[], 41, emptyCache 10, 0, none⟩ ⟨7, false, 0, 0, ["example.com."], []⟩).1.requestCounter
      = 41 :=
  (handleDNSRequest_down ⟨false, 300⟩ toyCodec ⟨toyAEAD⟩
    ⟨0, 0, 0, 0, .ok [1, 2, 3, 4, 5, 6, 7, 8, 9, 10, 11, 12], 0, .timeout⟩
    ⟨[], 41, emptyCache 10, 0, none⟩ ⟨7, false, 0, 0, ["example.com."], []⟩ rfl).2.2.1

/-- C9 (counterexample). With the gate up and no cache, a query whose tunnel
response carries a payload that does not unpack (here the empty payload) gets
no reply at all: the handler sends the frame, waits, and returns. -/
theorem handleDNSRequest_no_reply_on_bad_response :
    (handleDNSRequest ⟨false, 300⟩ toyCodec ⟨toyAEAD⟩
        ⟨0, 0, 0, 0, .ok [1, 2, 3, 4, 5, 6, 7, 8, 9, 10, 11, 12], 0,
          .delivered (NewDNSResponse 0 42 [])⟩
        ⟨[], 41, emptyCache 10, 1, some true⟩ ⟨7, false, 0, 0, ["example.com."], []⟩).2
      = [client.Event.WriteMessage ([1, 2, 3, 4, 5, 6, 7, 8, 9, 10, 11, 12]
            ++ toyAEAD.sealed [1, 2, 3, 4, 5, 6, 7, 8, 9, 10, 11, 12]
              (NewDNSQuery 0 42 [0, 7, 0, 0, 0, 1, 0, 0, 0, 0, 0, 0, 12]).Encode),
         client.Event.Await 42] ∧
    replies (handleDNSRequest ⟨false, 300⟩ toyCodec ⟨toyAEAD⟩
        ⟨0, 0, 0, 0, .ok [1, 2, 3, 4, 5, 6, 7, 8, 9, 10, 11, 12], 0,
          .delivered (NewDNSResponse 0 42 [])⟩
        ⟨[], 41, emptyCache 10, 1, some true⟩ ⟨7, false, 0, 0, ["example.com."], []⟩).2
      = [] := by
  decide

/-- C9 (amended). Whatever the outcome of its internal steps,
`handleDNSRequest` writes at most one reply to the UDP client, and every reply
it writes carries the query's id and is either the `SERVFAIL` reply over the
query or a DNS response (the cached one, or the one unpacked from the tunnel
frame) with the id overwritten. It writes no reply on exactly two paths, both
with no usable cache hit and the gate up: packing the query fails, or the frame
was sent, a response arrived and its payload does not unpack. -/
theorem handleDNSRequest_replies (cfg : client.Config) (lib : dns.Codec) (e : Encryptor)
    (env : client.Env) (st : client.State) (r : dns.Msg) :
    (replies (handleDNSRequest cfg lib e env st r).2).length ≤ 1 ∧
    (∀ m ∈ replies (handleDNSRequest cfg lib e env st r).2,
      m.Id = r.Id ∧
      ((m = servfail r ∧ m.Rcode = dns.RcodeServerFailure) ∨
        ∃ response, m = { response with Id := r.Id } ∧
          (cacheHit cfg lib env st r = some response ∨
            ∃ responseMsg, env.wait = .delivered responseMsg ∧
              lib.Unpack responseMsg.Payload = some response))) ∧
    (replies (handleDNSRequest cfg lib e env st r).2 = [] ↔
      cacheHit cfg lib env st r = none ∧ st.connected ≠ 0 ∧
      (lib.Pack r = none ∨
        ∃ dnsData, lib.Pack r = some dnsData ∧
          (sendMessage e env.rand st.wsConn
            (NewDNSQuery env.tQuery ((st.requestCounter + 1) % 2 ^ 32) dnsData)).1 = none ∧
          ∃ responseMsg, env.wait = .delivered responseMsg ∧
            lib.Unpack responseMsg.Payload = none)) := by
  cases hhit : cacheHit cfg lib env st r with
  | some resp =>
    have hout : handleDNSRequest cfg lib e env st r
        = (st, [client.Event.WriteMsg { resp with Id := r.Id }]) := by
      simp [handleDNSRequest, hhit]
    rw [hout]
    refine ⟨by simp [replies], ?_, by simp [replies]⟩
    intro m hm
    simp only [replies, List.mem_singleton] at hm
    subst hm
    exact ⟨rfl, Or.inr ⟨resp, rfl, Or.inl rfl⟩⟩
  | none =>
    by_cases hconn : st.connected = 0
    · have hout : handleDNSRequest cfg lib e env st r
          = (st, [client.Event.WriteMsg (servfail r)]) := by
        simp [handleDNSRequest, hhit, hconn]
      rw [hout]
      refine ⟨by simp [replies], ?_, by simp [replies, hconn]⟩
      intro m hm
      simp only [replies, List.mem_singleton] at hm
      subst hm
      exact ⟨rfl, Or.inl ⟨rfl, rfl⟩⟩
    · cases hpack : lib.Pack r with
      | none =>
        have hout : (handleDNSRequest cfg lib e env st r).2 = [] := by
          simp [handleDNSRequest, hhit, hconn, hpack]
        rw [hout]
        simp [replies, hconn]
      | some dnsData =>
        have hrep := sendMessage_replies e env.rand st.wsConn
          (NewDNSQuery env.tQuery ((st.requestCounter + 1) % 2 ^ 32) dnsData)
        rcases hsend : sendMessage e env.rand st.wsConn
          (NewDNSQuery env.tQuery ((st.requestCounter + 1) % 2 ^ 32) dnsData) with ⟨err, sent⟩
        rw [hsend] at hrep
        simp only at hrep
        have hsend2 := hsend
        simp only [Nat.reducePow] at hsend2
        cases err with
        | some f =>
          have hout : (handleDNSRequest cfg lib e env st r).2
              = sent ++ [client.Event.WriteMsg (servfail r)] := by
            simp [handleDNSRequest, hhit, hconn, hpack, hsend2]
          rw [hout, replies_append, hrep]
          refine ⟨by simp [replies], ?_, by simp [replies, hsend2]⟩
          intro m hm
          simp only [replies, List.nil_append, List.mem_singleton] at hm
          subst hm
          exact ⟨rfl, Or.inl ⟨rfl, rfl⟩⟩
        | none =>
          cases hwait : env.wait with
          | timeout =>
            have hout : (handleDNSRequest cfg lib e env st r).2
                = sent ++ [client.Event.Await ((st.requestCounter + 1) % 2 ^ 32),
                    client.Event.WriteMsg (servfail r)] := by
              simp [handleDNSRequest, hhit, hconn, hpack, hsend2, hwait]
            rw [hout, replies_append, hrep]
            refine ⟨by simp [replies], ?_, by simp [replies, hsend2, hwait]⟩
            intro m hm
            simp only [replies, List.nil_append, List.mem_singleton] at hm
            subst hm
            exact ⟨rfl, Or.inl ⟨rfl, rfl⟩⟩
          | delivered responseMsg =>
            cases hun : lib.Unpack responseMsg.Payload with
            | none =>
              have hout : (handleDNSRequest cfg lib e env st r).2
                  = sent ++ [client.Event.Await ((st.requestCounter + 1) % 2 ^ 32)] := by
                simp [handleDNSRequest, hhit, hconn, hpack, hsend2, hwait, hun]
              rw [hout, replies_append, hrep]
              refine ⟨by simp [replies], by simp [replies], ?_⟩
              simp [replies, hconn, hun, hsend2, hwait]
            | some response =>
              have hout : (handleDNSRequest cfg lib e env st r).2
                  = sent ++ [client.Event.Await ((st.requestCounter + 1) % 2 ^ 32),
                      client.Event.WriteMsg { response with Id := r.Id }] := by
                simp [handleDNSRequest, hhit, hconn, hpack, hsend2, hwait, hun]
              rw [hout, replies_append, hrep]
              refine ⟨by simp [replies], ?_, by simp [replies, hun, hsend2, hwait]⟩
              intro m hm
              simp only [replies, List.nil_append, List.mem_singleton] at hm
              subst hm
              exact ⟨rfl, Or.inr ⟨response, rfl, Or.inr ⟨responseMsg, rfl, hun⟩⟩⟩

/-- C9 (amended) at a query with id 7 whose wait times out. -/
theorem handleDNSRequest_replies_witness :
    (servfail ⟨7, false, 0, 0, ["example.com."], []⟩).Id = 7 :=
  ((handleDNSRequest_replies ⟨false, 300⟩ toyCodec ⟨toyAEAD⟩
    ⟨0, 0, 0, 0, .ok [1, 2, 3, 4, 5, 6, 7, 8, 9, 10, 11, 12], 0, .timeout⟩
    ⟨[], 41, emptyCache 10, 1, some true⟩ ⟨7, false, 0, 0, ["example.com."], []⟩).2.1
    (servfail ⟨7, false, 0, 0, ["example.com."], []⟩) (by decide)).1

/-! ## Upstream forwarder -/

open upstream

theorem exchangeLoop_first_success (ex : Nat → dns.Msg → String → Option dns.Msg) (q : dns.Msg)
    (upstreams : List String) (i0 i : Nat) (u : String) (resp : dns.Msg)
    (response : Option dns.Msg) (err : Bool)
    (hu : upstreams[i]? = some u) (hok : ex (i0 + i) q u = some resp)
    (hfail : ∀ j u', j < i → upstreams[j]? = some u' → ex (i0 + j) q u' = none) :
    exchangeLoop ex q i0 upstreams response err
      = (some resp, false, (upstreams.take (i + 1)).map upstream.Event.Exchange) := by
  induction upstreams generalizing i0 i response err with
  | nil => simp at hu
  | cons u0 rest ih =>
    cases i with
    | zero =>
      simp only [List.getElem?_cons_zero, Option.some.injEq] at hu
      subst hu
      simp only [Nat.add_zero] at hok
      simp [exchangeLoop, hok]
    | succ i =>
      have h0 : ex i0 q u0 = none := by
        have := hfail 0 u0 (Nat.succ_pos i) (by simp)
        simpa using this
      simp only [List.getElem?_cons_succ] at hu
      have hrec := ih (i0 + 1) i none true hu (by rw [← hok]; congr 1; omega)
        (fun j u' hj hju => by
          have := hfail (j + 1) u' (by omega) (by simpa using hju)
          rw [← this]; congr 1; omega)
      simp [exchangeLoop, h0, hrec]

theorem exchangeLoop_all_fail (ex : Nat → dns.Msg → String → Option dns.Msg) (q : dns.Msg)
    (upstreams : List String) (i0 : Nat) (response : Option dns.Msg) (err : Bool)
    (hne : upstreams ≠ [])
    (hfail : ∀ j u', upstreams[j]? = some u' → ex (i0 + j) q u' = none) :
    exchangeLoop ex q i0 upstreams response err
      = (none, true, upstreams.map upstream.Event.Exchange) := by
  induction upstreams generalizing i0 response err with
  | nil => exact absurd rfl hne
  | cons u0 rest ih =>
    have h0 : ex i0 q u0 = none := by
      have := hfail 0 u0 (by simp)
      simpa using this
    have hfail2 : ∀ j u', rest[j]? = some u' → ex (i0 + 1 + j) q u' = none := by
      intro j u' hju
      have := hfail (j + 1) u' (by simpa using hju)
      rw [← this]; congr 1; omega
    cases rest with
    | nil => simp [exchangeLoop, h0]
    | cons u1 rest2 =>
      have hrec := ih (i0 + 1) none true (by simp) hfail2
      simp [exchangeLoop, h0] at hrec ⊢
      simp [exchangeLoop, hrec]

theorem exchangeLoop_events (ex : Nat → dns.Msg → String → Option dns.Msg) (q : dns.Msg)
    (upstreams : List String) (i0 : Nat) (response : Option dns.Msg) (err : Bool)
    (m : Message) : upstream.Event.sendResponse m ∉ (exchangeLoop ex q i0 upstreams response err).2.2 := by
  induction upstreams generalizing i0 response err with
  | nil => simp [exchangeLoop]
  | cons u0 rest ih =>
    cases h0 : ex i0 q u0 with
    | some resp => simp [exchangeLoop, h0]
    | none =>
      have := ih (i0 + 1) none true
      simp [exchangeLoop, h0, this]

/-- C10 (counterexample). One upstream, whose exchange succeeds with a response
that the codec refuses to pack: the forwarder contacts it and returns without
handing any frame to `sendResponse`. -/
theorem handleDNSQuery_no_frame_when_pack_fails :
    toyCodec.Unpack (NewDNSQuery 0 42 [0, 7, 0, 0, 0, 0, 0, 0, 0, 0, 0, 0]).Payload
      = some ⟨7, false, 0, 0, [], []⟩ ∧
    handleDNSQuery toyCodec
        ⟨fun _ _ _ => some ⟨7, true, 0, 0, ["example.com"], []⟩, 0⟩ ["8.8.8.8:53"]
        (NewDNSQuery 0 42 [0, 7, 0, 0, 0, 0, 0, 0, 0, 0, 0, 0])
      = (none, [upstream.Event.Exchange "8.8.8.8:53"]) := by
  decide

/-- C10 (amended). For a non-empty upstream list and a query frame whose
payload unpacks, `handleDNSQuery` tries the upstreams in configuration order
and stops at the first whose exchange succeeds, contacting no later one; it
then packs that upstream's response, or, if every exchange failed, the
`SERVFAIL` reply built over the original query. If the packing succeeds it
hands to `sendResponse` one frame of kind `DNSResponse` with the request id of
the query frame and the packed bytes; if the packing fails it sends no frame.
Every frame it sends has kind `DNSResponse` and the query frame's request id. -/
theorem handleDNSQuery_failover (lib : dns.Codec) (env : upstream.Env) (upstreams : List String)
    (msg : Message) (q : dns.Msg) (hne : upstreams ≠ [])
    (hq : lib.Unpack msg.Payload = some q) :
    (∀ i u resp, upstreams[i]? = some u → env.exchange i q u = some resp →
      (∀ j u', j < i → upstreams[j]? = some u' → env.exchange j q u' = none) →
      handleDNSQuery lib env upstreams msg =
        (none, (upstreams.take (i + 1)).map upstream.Event.Exchange ++
          match lib.Pack resp with
          | some responseData =>
            [upstream.Event.sendResponse (NewDNSResponse env.now msg.RequestID responseData)]
          | none => [])) ∧
    ((∀ j u', upstreams[j]? = some u' → env.exchange j q u' = none) →
      handleDNSQuery lib env upstreams msg =
        (none, upstreams.map upstream.Event.Exchange ++
          match lib.Pack { dns.SetReply q with Rcode := dns.RcodeServerFailure } with
          | some responseData =>
            [upstream.Event.sendResponse (NewDNSResponse env.now msg.RequestID responseData)]
          | none => [])) ∧
    (∀ m, upstream.Event.sendResponse m ∈ (handleDNSQuery lib env upstreams msg).2 →
      m.MsgType = TypeDNSResponse ∧ m.RequestID = msg.RequestID) := by
  refine ⟨?_, ?_, ?_⟩
  · intro i u resp hu hok hfail
    have hloop := exchangeLoop_first_success env.exchange q upstreams 0 i u resp none false hu
      (by simpa using hok) (fun j u' hj hju => by simpa using hfail j u' hj hju)
    cases hp : lib.Pack resp with
    | none => simp [handleDNSQuery, hq, hloop, hp]
    | some d => simp [handleDNSQuery, hq, hloop, hp]
  · intro hfail
    have hloop := exchangeLoop_all_fail env.exchange q upstreams 0 none false hne
      (fun j u' hju => by simpa using hfail j u' hju)
    cases hp : lib.Pack { dns.SetReply q with Rcode := dns.RcodeServerFailure } with
    | none => simp [handleDNSQuery, hq, hloop, hp]
    | some d => simp [handleDNSQuery, hq, hloop, hp]
  · intro m hm
    have hno := exchangeLoop_events env.exchange q upstreams 0 none false m
    simp only [handleDNSQuery, hq] at hm
    split at hm
    · exact absurd hm hno
    · split at hm
      · exact absurd hm hno
      · simp only [List.mem_append, List.mem_singleton] at hm
        rcases hm with hm | hm
        · exact absurd hm hno
        · cases hm
          exact ⟨rfl, rfl⟩

/-- C10 (amended) with upstreams `[127.0.0.1:65000, 8.8.8.8:53]`, the first of
which fails: both are contacted in order and the second one's response is sent. -/
theorem handleDNSQuery_failover_witness :
    handleDNSQuery toyCodec
        ⟨fun i _ _ => if i = 0 then none else some ⟨7, true, 0, 0, ["example.com."], []⟩, 5⟩
        ["127.0.0.1:65000", "8.8.8.8:53"] (NewDNSQuery 0 42 [0, 7, 0, 0, 0, 0, 0, 0, 0, 0, 0, 0])
      = (none, (["127.0.0.1:65000", "8.8.8.8:53"].take (1 + 1)).map upstream.Event.Exchange ++
          match toyCodec.Pack ⟨7, true, 0, 0, ["example.com."], []⟩ with
          | some responseData =>
            [upstream.Event.sendResponse (NewDNSResponse 5 42 responseData)]
          | none => []) :=
  (handleDNSQuery_failover toyCodec
    ⟨fun i _ _ => if i = 0 then none else some ⟨7, true, 0, 0, ["example.com."], []⟩, 5⟩
    ["127.0.0.1:65000", "8.8.8.8:53"] (NewDNSQuery 0 42 [0, 7, 0, 0, 0, 0, 0, 0, 0, 0, 0, 0])
    ⟨7, false, 0, 0, [], []⟩ (by decide) (by decide)).1 1 "8.8.8.8:53"
    ⟨7, true, 0, 0, ["example.com."], []⟩ (by decide) (by decide)
    (fun j u' hj _ => by
      have h0 : j = 0 := by omega
      subst h0
      rfl)

/-! ## Request ids -/

/-- C11 (counterexample). With the request counter at `2^32 - 1` the handler
allocates request id 0: the counter is 0 afterwards and the frame written to the
tunnel seals the encoding of a `DNSQuery` message with request id 0. -/
theorem handleDNSRequest_allocates_zero :
    (handleDNSRequest ⟨false, 300⟩ toyCodec ⟨toyAEAD⟩
        ⟨0, 0, 0, 0, .ok [1, 2, 3, 4, 5, 6, 7, 8, 9, 10, 11, 12], 0, .timeout⟩
        ⟨[], 4294967295, emptyCache 10, 1, some true⟩
        ⟨7, false, 0, 0, ["example.com."], []⟩).1.requestCounter = 0 ∧
    frames (handleDNSRequest ⟨false, 300⟩ toyCodec ⟨toyAEAD⟩
        ⟨0, 0, 0, 0, .ok [1, 2, 3, 4, 5, 6, 7, 8, 9, 10, 11, 12], 0, .timeout⟩
        ⟨[], 4294967295, emptyCache 10, 1, some true⟩
        ⟨7, false, 0, 0, ["example.com."], []⟩).2
      = [toyAEAD.Seal [1, 2, 3, 4, 5, 6, 7, 8, 9, 10, 11, 12]
          [1, 2, 3, 4, 5, 6, 7, 8, 9, 10, 11, 12]
          (Message.mk TypeDNSQuery 0 0 [0, 7, 0, 0, 0, 1, 0, 0, 0, 0, 0, 0, 12]).Encode] := by
  decide

/-- C11 (amended). On the path that reaches the tunnel (no usable cache hit,
gate up, the query packs, the nonce is drawn, a connection is installed) the
handler stores `(counter + 1) mod 2^32` in the request counter and writes one
frame, which seals the encoding of a `DNSQuery` message with that request id.
The id is zero exactly when the counter was `2^32 - 1`, and is `counter + 1`,
hence non-zero, for every other value. `NewHeartbeat` and `NewHeartbeatAck`
always carry request id 0. -/
theorem handleDNSRequest_request_id (cfg : client.Config) (lib : dns.Codec) (e : Encryptor)
    (env : client.Env) (st : client.State) (r : dns.Msg) (dnsData nonce : Bytes) (ok : Bool)
    (hhit : cacheHit cfg lib env st r = none) (hconn : st.connected ≠ 0)
    (hpack : lib.Pack r = some dnsData) (hrand : env.rand = .ok nonce)
    (hws : st.wsConn = some ok) (hc : st.requestCounter < 2 ^ 32) :
    (handleDNSRequest cfg lib e env st r).1.requestCounter = (st.requestCounter + 1) % 2 ^ 32 ∧
    frames (handleDNSRequest cfg lib e env st r).2
      = [e.gcm.Seal nonce nonce
          (NewDNSQuery env.tQuery ((st.requestCounter + 1) % 2 ^ 32) dnsData).Encode] ∧
    (NewDNSQuery env.tQuery ((st.requestCounter + 1) % 2 ^ 32) dnsData).MsgType = TypeDNSQuery ∧
    (NewDNSQuery env.tQuery ((st.requestCounter + 1) % 2 ^ 32) dnsData).RequestID
      = (st.requestCounter + 1) % 2 ^ 32 ∧
    ((st.requestCounter + 1) % 2 ^ 32 = 0 ↔ st.requestCounter = 2 ^ 32 - 1) ∧
    (st.requestCounter ≠ 2 ^ 32 - 1 →
      (st.requestCounter + 1) % 2 ^ 32 = st.requestCounter + 1 ∧
      (st.requestCounter + 1) % 2 ^ 32 ≠ 0) ∧
    (∀ now, (NewHeartbeat now).RequestID = 0 ∧ (NewHeartbeatAck now).RequestID = 0) := by
  have hmod : ((st.requestCounter + 1) % 2 ^ 32 = 0 ↔ st.requestCounter = 2 ^ 32 - 1) := by
    omega
  refine ⟨?_, ?_, rfl, rfl, hmod, fun hne => ⟨by omega, by omega⟩, fun _ => ⟨rfl, rfl⟩⟩
  · cases ok <;> cases hw : env.wait with
    | timeout =>
      simp [handleDNSRequest, hhit, hconn, hpack, hrand, hws, sendMessage, Encryptor.Encrypt, hw]
    | delivered responseMsg =>
      cases hun : lib.Unpack responseMsg.Payload with
      | none =>
        simp [handleDNSRequest, hhit, hconn, hpack, hrand, hws, sendMessage, Encryptor.Encrypt,
          hw, hun]
      | some response =>
        simp only [handleDNSRequest, hhit, hconn, hpack, hrand, hws, sendMessage,
          Encryptor.Encrypt, hw, hun, if_false]
        try (split_ifs <;> rfl)
  · cases ok <;> cases hw : env.wait with
    | timeout =>
      simp [handleDNSRequest, hhit, hconn, hpack, hrand, hws, sendMessage, Encryptor.Encrypt, hw,
        frames]
    | delivered responseMsg =>
      cases hun : lib.Unpack responseMsg.Payload with
      | none =>
        simp [handleDNSRequest, hhit, hconn, hpack, hrand, hws, sendMessage, Encryptor.Encrypt,
          hw, hun, frames]
      | some response =>
        simp [handleDNSRequest, hhit, hconn, hpack, hrand, hws, sendMessage, Encryptor.Encrypt,
          hw, hun, frames]

/-- C11 (amended) at counter 41: the id allocated is 42. -/
theorem handleDNSRequest_request_id_witness :
    (handleDNSRequest ⟨false, 300⟩ toyCodec ⟨toyAEAD⟩
        ⟨0, 0, 0, 0, .ok [1, 2, 3, 4, 5, 6, 7, 8, 9, 10, 11, 12], 0, .timeout⟩
        ⟨[], 41, emptyCache 10, 1, some true⟩
        ⟨7, false, 0, 0, ["example.com."], []⟩).1.requestCounter = (41 + 1) % 2 ^ 32 :=
  (handleDNSRequest_request_id ⟨false, 300⟩ toyCodec ⟨toyAEAD⟩
    ⟨0, 0, 0, 0, .ok [1, 2, 3, 4, 5, 6, 7, 8, 9, 10, 11, 12], 0, .timeout⟩
    ⟨[], 41, emptyCache 10, 1, some true⟩ ⟨7, false, 0, 0, ["example.com."], []⟩
    [0, 7, 0, 0, 0, 1, 0, 0, 0, 0, 0, 0, 12] [1, 2, 3, 4, 5, 6, 7, 8, 9, 10, 11, 12] true
    (by decide) (by decide) (by decide) rfl rfl (by decide)).1

/-! ## Client multiplexer -/

theorem mapLookup_map_update {ν : Type} (m : List (Nat × ν)) (k k' : Nat) (v : ν) :
    mapLookup (m.map (fun entry => if entry.1 = k then (entry.1, v) else entry)) k'
      = if k = k' then (mapLookup m k').map (fun _ => v) else mapLookup m k' := by
  induction m with
  | nil => simp [mapLookup]
  | cons e rest ih =>
    obtain ⟨k0, v0⟩ := e
    by_cases h0 : k0 = k
    · have e1 : (if (k0, v0).1 = k then ((k0, v0).1, v) else (k0, v0)) = (k0, v) := by
        simp [h0]
      rw [List.map_cons, e1]
      by_cases h1 : k0 = k'
      · have hk : k = k' := h0 ▸ h1
        simp only [mapLookup, if_pos h1, if_pos hk, Option.map_some']
      · have hk : ¬ k = k' := h0 ▸ h1
        simp only [mapLookup, if_neg h1, if_neg hk, ih]
    · have e1 : (if (k0, v0).1 = k then ((k0, v0).1, v) else (k0, v0)) = (k0, v0) := by
        simp [h0]
      rw [List.map_cons, e1]
      by_cases h1 : k0 = k'
      · have hk : ¬ k = k' := fun h => h0 (h1.trans h.symm)
        simp only [mapLookup, if_pos h1, if_neg hk]
      · simp only [mapLookup, if_neg h1, ih]

theorem keys_map_update {ν : Type} (m : List (Nat × ν)) (k : Nat) (v : ν) :
    (m.map (fun entry => if entry.1 = k then (entry.1, v) else entry)).map Prod.fst
      = m.map Prod.fst := by
  induction m with
  | nil => rfl
  | cons e rest ih =>
    simp only [List.map_cons, ih]
    split_ifs <;> rfl

/-- C12. `handleDNSResponse(m)` on any client state: if the pending table has an
entry for `m.RequestID` whose sink is empty, the sink holds `m` afterwards (the
creation instant is kept); if that sink is already filled, `m` is dropped and
the state is unchanged; if there is no entry for `m.RequestID`, the state is
unchanged. In every case the ids in the table are the same, in the same order,
every entry under another id is unchanged, and so are the counter, the cache,
the connection flag and the connection. -/
theorem handleDNSResponse_effect (st : client.State) (m : Message) :
    (∀ pending, mapLookup st.pendingRequests m.RequestID = some pending →
      pending.ResponseChan = none →
      mapLookup (handleDNSResponse st m).pendingRequests m.RequestID
        = some { ResponseChan := some m, CreatedAt := pending.CreatedAt }) ∧
    (∀ pending held, mapLookup st.pendingRequests m.RequestID = some pending →
      pending.ResponseChan = some held →
      mapLookup (handleDNSResponse st m).pendingRequests m.RequestID = some pending) ∧
    (mapLookup st.pendingRequests m.RequestID = none → handleDNSResponse st m = st) ∧
    (handleDNSResponse st m).pendingRequests.map Prod.fst = st.pendingRequests.map Prod.fst ∧
    (∀ id, id ≠ m.RequestID →
      mapLookup (handleDNSResponse st m).pendingRequests id = mapLookup st.pendingRequests id) ∧
    (handleDNSResponse st m).requestCounter = st.requestCounter ∧
    (handleDNSResponse st m).dnsCache = st.dnsCache ∧
    (handleDNSResponse st m).connected = st.connected ∧
    (handleDNSResponse st m).wsConn = st.wsConn := by
  cases hl : mapLookup st.pendingRequests m.RequestID with
  | none =>
    have hout : handleDNSResponse st m = st := by simp [handleDNSResponse, hl]
    rw [hout]
    refine ⟨?_, ?_, fun _ => rfl, rfl, fun _ _ => rfl, rfl, rfl, rfl, rfl⟩
    · intro p hp; cases hp
    · intro p held hp; cases hp
  | some p =>
    have hout : handleDNSResponse st m
        = { st with pendingRequests := st.pendingRequests.map (fun entry =>
              if entry.1 = m.RequestID then
                (entry.1, { p with ResponseChan := trySend p.ResponseChan m })
              else entry) } := by
      simp [handleDNSResponse, hl]
    rw [hout]
    refine ⟨?_, ?_, fun h => (by cases h), keys_map_update _ _ _, ?_, rfl, rfl, rfl, rfl⟩
    · intro pending hp hempty
      cases hp
      simp only [mapLookup_map_update, if_true, hl, Option.map_some', hempty, trySend]
    · intro pending held hp hfull
      cases hp
      simp only [mapLookup_map_update, if_true, hl, Option.map_some', hfull, trySend]
      cases p
      simp only at hfull
      simp [hfull]
    · intro id hid
      simp only [mapLookup_map_update, if_neg (Ne.symm hid)]

/-- C12 at a table with ids 42 and 43, both sinks empty, and a response for 42. -/
theorem handleDNSResponse_effect_witness :
    mapLookup (handleDNSResponse
        ⟨[(42, ⟨none, 5⟩), (43, ⟨none, 6⟩)], 43, emptyCache 10, 1, some true⟩
        (NewDNSResponse 9 42 [1, 2])).pendingRequests 42
      = some { ResponseChan := some (NewDNSResponse 9 42 [1, 2]), CreatedAt := 5 } :=
  (handleDNSResponse_effect ⟨[(42, ⟨none, 5⟩), (43, ⟨none, 6⟩)], 43, emptyCache 10, 1, some true⟩
    (NewDNSResponse 9 42 [1, 2])).1 ⟨none, 5⟩ (by decide) rfl

end DNSForwarder
